import Mathlib

/-!
Shallow embedding of the PixelCascade image pipeline (Go, AWS Lambda):
Upload Notifier, Metadata Worker, Converter Worker, Resizer Worker.
External collaborators (S3, SNS, SQS, DynamoDB, the filesystem, the JSON
unmarshaller and the image codecs) are modelled as an explicit environment
of oracles; each worker handler is a fold over its batch of records that
threads an explicit write log (blob puts and DynamoDB items) and stops at
the first error, mirroring the Go `return err` statements.
-/

namespace PixelCascade

/-! Part 1: filename derivation.
Models Go `filepath.Base`, `filepath.Ext` and `strings.TrimSuffix` over
`List Char` ('/' is the only path separator on the deployment platform),
then the `extractFilename` helper that all three workers define. -/

/-- Models the trailing-separator stripping loop at the start of `filepath.Base`. -/
def stripTrailingSep (p : List Char) : List Char :=
  (p.reverse.dropWhile fun c => c = '/').reverse

/-- Models the final `path[i+1:]` step of `filepath.Base`: everything after the
last separator (the whole string when there is no separator). -/
def lastElem (p : List Char) : List Char :=
  (p.reverse.takeWhile fun c => c ≠ '/').reverse

/-- Models Go `filepath.Base`: "." for the empty path, "/" when the path holds
only separators, otherwise the last element after stripping trailing separators. -/
def baseL (p : List Char) : List Char :=
  if p = [] then ['.']
  else
    let e := lastElem (stripTrailingSep p)
    if e = [] then ['/'] else e

/-- Models Go `filepath.Ext`: the suffix beginning at the final dot in the final
slash-separated element; empty when that element has no dot. -/
def extL (p : List Char) : List Char :=
  let seg := p.reverse.takeWhile fun c => c ≠ '/'
  if '.' ∈ seg then '.' :: (seg.takeWhile fun c => c ≠ '.').reverse else []

/-- Models Go `strings.TrimSuffix`, written exactly from `strings.HasSuffix`:
drop the suffix when `len s ≥ len suffix` and the tail of `s` equals it. -/
def trimSuffixL (s suffix : List Char) : List Char :=
  if suffix.length ≤ s.length ∧ s.drop (s.length - suffix.length) = suffix
  then s.take (s.length - suffix.length)
  else s

/-- Models `extractFilename` from `metadata-extractor-function/main.go`:
`strings.TrimSuffix(filepath.Base input, filepath.Ext (filepath.Base input))`. -/
def extractFilename (input : String) : String :=
  let base := baseL input.data
  ⟨trimSuffixL base (extL base)⟩

/-- Models the `extractFilename` copy in the Converter Worker source. -/
def extractFilenameConv (input : String) : String :=
  let base := baseL input.data
  ⟨trimSuffixL base (extL base)⟩

/-- Models the `extractFilename` copy in the Resizer Worker source. -/
def extractFilenameResz (input : String) : String :=
  let base := baseL input.data
  ⟨trimSuffixL base (extL base)⟩

/-! Part 2: data model shared by the workers. Pixel data and encoded bytes
are abstract: decoding, resampling and JPEG encoding are external codecs,
so an image is its dimensions plus an opaque pixel tag, and encoded bytes
record the encoder's quality option and input image. -/

/-- Error values flowing through the handlers. Which concrete error an
external call returns is chosen by the environment; the fixed constructors
name the failure site for the calls modelled by a success flag. -/
inductive Err where
  | serialization
  | transient
  | decodeFail
  | encodeFail
  | putFail
  | putItemFail
  | publishFail
  | other (n : Nat)
deriving DecidableEq

/-- Abstract pixel data: a source image's pixels, or the result of
Lanczos3 resampling to a target width. -/
inductive Pix where
  | src (id : Nat)
  | lanczos3 (target : Nat) (p : Pix)
deriving DecidableEq

/-- An in-memory decoded image: bounds plus abstract pixel data. -/
structure Image where
  width : Nat
  height : Nat
  pix : Pix
deriving DecidableEq

/-- Byte strings: raw fetched object bytes (abstract id), or the output of
`jpeg.Encode` with a quality option on a decoded image. -/
inductive Bytes where
  | raw (id : Nat)
  | jpeg (quality : Nat) (img : Image)
deriving DecidableEq

/-- Models the `messageBody` struct shared by the three workers. -/
structure MessageBody where
  bucket : String
  key : String
deriving DecidableEq

/-- Models an SQS record: message id and raw JSON body string. -/
structure SQSRecord where
  messageId : String
  body : String
deriving DecidableEq

/-- Models the metadata map built by `generateMetadata`. -/
structure Metadata where
  width : Nat
  height : Nat
  format : String
  file_size : Nat
  file_name : String
  last_modified : String
deriving DecidableEq

/-- Models the DynamoDB item the Metadata Worker puts: name, bucket and the
metadata map. DynamoDB `PutItem` overwrites by the table key `name`. -/
structure Item where
  name : String
  bucket : String
  metadata : Metadata
deriving DecidableEq

/-- Write log of one invocation: blob puts `(bucket, path, bytes)` in the
order they succeeded, and DynamoDB items in the order they were put.
Failed calls append nothing. -/
structure St where
  puts : List (String × String × Bytes)
  items : List Item
deriving DecidableEq

/-- Environment of external collaborators: JSON unmarshalling, S3 get/put,
image codecs, the Metadata Worker's temp-file I/O, DynamoDB and SNS.
Fallible calls that return data are oracles into `Except`; fallible calls
whose only result is success are Boolean success flags. -/
structure Env where
  parseBody : String → Except Err MessageBody
  getObject : String → String → Except Err Bytes
  decode : Bytes → Except Err (Image × String)
  decodeConfig : Bytes → Except Err (Nat × Nat × String)
  encodeOk : Nat → Image → Bool
  putOk : String → String → Bool
  putItemOk : Item → Bool
  publishOk : String → Bool
  readAllOk : Bytes → Bool
  writeTmpOk : Bytes → Bool
  openTmpOk : Bool
  statOk : Bool
  fileSize : Bytes → Nat
  modTime : String

/-- Reads the latest blob written at `(bucket, path)` from the write log:
S3 put has overwrite semantics, so a later put shadows an earlier one. -/
def lookupStore (puts : List (String × String × Bytes)) (bucket path : String) :
    Option Bytes :=
  (puts.reverse.find? fun p => p.1 == bucket && p.2.1 == path).map (·.2.2)

/-! Part 3: the Metadata Worker (`metadata-extractor-function/main.go`). -/

/-- Models `generateMetadata`: fetch the object, read its body fully, write
the bytes to `/tmp`, open the file, decode only the image header, stat the
file, and build the metadata map. `file_name` is the temp file's name,
`filepath.Base key`; `file_size` is the fetched content's byte length;
`last_modified` is the temp file's mod time, provided by the environment. -/
def generateMetadata (env : Env) (bucket key : String) : Except Err Metadata :=
  match env.getObject bucket key with
  | .error e => .error e
  | .ok bytes =>
    if env.readAllOk bytes = false then .error .transient
    else if env.writeTmpOk bytes = false then .error .transient
    else if env.openTmpOk = false then .error .transient
    else match env.decodeConfig bytes with
      | .error e => .error e
      | .ok (w, h, fmt) =>
        if env.statOk = false then .error .transient
        else .ok { width := w, height := h, format := fmt,
                   file_size := env.fileSize bytes,
                   file_name := ⟨baseL key.data⟩,
                   last_modified := env.modTime }

/-- Models one iteration of the Metadata Worker's record loop: unmarshal the
body, generate metadata, put the DynamoDB item; the first error is returned
and nothing is written for this record. -/
def processRecordMeta (env : Env) (st : St) (r : SQSRecord) : Except Err Unit × St :=
  match env.parseBody r.body with
  | .error e => (.error e, st)
  | .ok body =>
    match generateMetadata env body.bucket body.key with
    | .error e => (.error e, st)
    | .ok md =>
      let item : Item := ⟨extractFilename body.key, body.bucket, md⟩
      if env.putItemOk item then (.ok (), { st with items := st.items ++ [item] })
      else (.error .putItemFail, st)

/-- Models the Metadata Worker handler: records processed sequentially; the
first failing record's error is returned for the whole batch. -/
def handlerMeta (env : Env) : St → List SQSRecord → Except Err Unit × St
  | st, [] => (.ok (), st)
  | st, r :: rs =>
    match processRecordMeta env st r with
    | (.ok _, st') => handlerMeta env st' rs
    | (.error e, st') => (.error e, st')

/-! Part 4: the Converter Worker (first file of `src/unnamed/part_000`). -/

def ConvertedFolder : String := "converted/"

/-- Models `convertToJPEG`: `jpeg.Encode` with options Quality 100. -/
def convertToJPEG (env : Env) (img : Image) : Except Err Bytes :=
  if env.encodeOk 100 img then .ok (.jpeg 100 img) else .error .encodeFail

/-- Models the Converter's upload path `ConvertedFolder+extractFilename(key)+".jpg"`. -/
def convertedPath (key : String) : String :=
  ConvertedFolder ++ extractFilenameConv key ++ ".jpg"

/-- Models one iteration of the Converter Worker's record loop: unmarshal,
fetch, decode the full image, re-encode as JPEG, upload; the first error is
returned and nothing is written for this record. -/
def processRecordConv (env : Env) (st : St) (r : SQSRecord) : Except Err Unit × St :=
  match env.parseBody r.body with
  | .error e => (.error e, st)
  | .ok body =>
    match env.getObject body.bucket body.key with
    | .error e => (.error e, st)
    | .ok bytes =>
      match env.decode bytes with
      | .error e => (.error e, st)
      | .ok (img, _fmt) =>
        match convertToJPEG env img with
        | .error e => (.error e, st)
        | .ok jpegImg =>
          let path := convertedPath body.key
          if env.putOk body.bucket path then
            (.ok (), { st with puts := st.puts ++ [(body.bucket, path, jpegImg)] })
          else (.error .putFail, st)

/-- Models the Converter Worker handler: sequential over the batch, first
error returned for the whole batch. -/
def handlerConv (env : Env) : St → List SQSRecord → Except Err Unit × St
  | st, [] => (.ok (), st)
  | st, r :: rs =>
    match processRecordConv env st r with
    | (.ok _, st') => handlerConv env st' rs
    | (.error e, st') => (.error e, st')

/-! Part 5: the Resizer Worker (second file of `src/unnamed/part_000`),
with the dimension arithmetic of the `nfnt/resize` library it calls. -/

/-- Models `calcFactors` from nfnt/resize, float64 modelled as exact ℚ. -/
def calcFactors (width height : Nat) (oldWidth oldHeight : ℚ) : ℚ × ℚ :=
  if width = 0 then
    if height = 0 then (1, 1)
    else (oldHeight / (height : ℚ), oldHeight / (height : ℚ))
  else
    if height = 0 then (oldWidth / (width : ℚ), oldWidth / (width : ℚ))
    else (oldWidth / (width : ℚ), oldHeight / (height : ℚ))

/-- Models the output-dimension computation of `resize.Resize(width, height,
img, interp)`: a zero target dimension is recomputed as
`uint(0.7 + oldDim/scale)`. Float64 arithmetic is modelled as exact rational
arithmetic, and the float-to-uint truncation as `Int.floor` then `toNat`
(the operand is nonnegative for positive source dimensions; a zero source
width divides by zero, which ℚ sends to 0 where float64 gives Inf — the
theorems below assume positive source dimensions). -/
def resizeDims (width height : Nat) (dx dy : Nat) : Nat × Nat :=
  let s := calcFactors width height (dx : ℚ) (dy : ℚ)
  let w := if width = 0 then (⌊(7 : ℚ)/10 + (dx : ℚ) / s.1⌋).toNat else width
  let h := if height = 0 then (⌊(7 : ℚ)/10 + (dy : ℚ) / s.2⌋).toNat else height
  (w, h)

/-- Models `resize.Resize(target, 0, img, resize.Lanczos3)` as called by the
Resizer: output bounds from `resizeDims`; the resampled pixel grid is
abstract; the library's trivial case returns the input image unchanged when
the computed bounds equal the input's. -/
def resizeGo (target : Nat) (img : Image) : Image :=
  let d := resizeDims target 0 img.width img.height
  if d.1 = img.width ∧ d.2 = img.height then img
  else { width := d.1, height := d.2, pix := .lanczos3 target img.pix }

def ResizedFolder : String := "resized/"

/-- Models the `resizeTasks` slice literal: size name and target width. -/
def resizeTasks : List (String × Nat) :=
  [("thumbnail", 100), ("medium", 500), ("large", 1000)]

/-- Models the Resizer's upload path
`ResizedFolder+extractFilename(key)+"/"+task.SizeName+".jpg"`. -/
def resizedPath (key sizeName : String) : String :=
  ResizedFolder ++ extractFilenameResz key ++ "/" ++ sizeName ++ ".jpg"

/-- Models one of the Resizer's three goroutines: resample, encode as JPEG,
upload. Every failure inside the goroutine is only logged and then `return`
exits the goroutine, so a failed task leaves the log untouched and reports
nothing to the handler. The `if err != nil` check right after `resize.Resize`
re-reads the loop's decode error, which is nil at that point, so it can
never fire and is not modelled. -/
def runResizeTask (env : Env) (bucket key : String) (img : Image) (st : St)
    (task : String × Nat) : St :=
  let resizedImg := resizeGo task.2 img
  match convertToJPEG env resizedImg with
  | .error _ => st
  | .ok jpegImg =>
    let path := resizedPath key task.1
    if env.putOk bucket path then
      { st with puts := st.puts ++ [(bucket, path, jpegImg)] }
    else st

/-- Models one iteration of the Resizer Worker's record loop: unmarshal,
fetch, decode once, then run the three resize tasks. The goroutines write to
disjoint paths and share only the read-only decoded image, so the
`sync.WaitGroup` fan-out/join is modelled as a sequential fold over
`resizeTasks`; after `wg.Wait()` the loop continues with no error whatever
the tasks did, so this returns `ok` whenever decoding succeeded. -/
def processRecordResz (env : Env) (st : St) (r : SQSRecord) : Except Err Unit × St :=
  match env.parseBody r.body with
  | .error e => (.error e, st)
  | .ok body =>
    match env.getObject body.bucket body.key with
    | .error e => (.error e, st)
    | .ok bytes =>
      match env.decode bytes with
      | .error e => (.error e, st)
      | .ok (img, _fmt) =>
        (.ok (), resizeTasks.foldl (runResizeTask env body.bucket body.key img) st)

/-- Models the Resizer Worker handler: sequential over the batch, first
error returned for the whole batch. -/
def handlerResz (env : Env) : St → List SQSRecord → Except Err Unit × St
  | st, [] => (.ok (), st)
  | st, r :: rs =>
    match processRecordResz env st r with
    | (.ok _, st') => handlerResz env st' rs
    | (.error e, st') => (.error e, st')

/-! Part 6: the Upload Notifier (`src/unnamed/part_002`). -/

/-- Models an S3 event record as the notifier reads it: bucket name and the
URL-decoded object key. -/
structure S3Record where
  bucketName : String
  urlDecodedKey : String
deriving DecidableEq

/-- Hexadecimal digit character, lowercase, as Go's JSON encoder emits. -/
def hexDigit (n : Nat) : Char :=
  if n < 10 then Char.ofNat ('0'.toNat + n) else Char.ofNat ('a'.toNat + n - 10)

/-- Models Go `encoding/json` string escaping with the default HTML escaping
of `json.Marshal`: quote, backslash, newline, carriage return and tab get
two-character escapes; other control characters and the HTML-sensitive
characters get `\u00xx`; U+2028 and U+2029 get `\u202x`; every other
character passes through. -/
def goJSONEscapeChar (c : Char) : List Char :=
  if c = '"' then ['\\', '"']
  else if c = '\\' then ['\\', '\\']
  else if c = '\n' then ['\\', 'n']
  else if c = '\r' then ['\\', 'r']
  else if c = '\t' then ['\\', 't']
  else if c.toNat < 32 ∨ c = '<' ∨ c = '>' ∨ c = '&' then
    ['\\', 'u', '0', '0', hexDigit (c.toNat / 16), hexDigit (c.toNat % 16)]
  else if c.toNat = 8232 ∨ c.toNat = 8233 then
    ['\\', 'u', '2', '0', '2', hexDigit (c.toNat % 16)]
  else [c]

/-- Models a Go JSON string literal: escaped content between quotes. -/
def goJSONString (s : String) : List Char :=
  '"' :: (s.data.flatMap goJSONEscapeChar ++ ['"'])

/-- Models `json.Marshal` of the notifier's payload struct with tags
`bucket` and `key` (marshalling a struct of two strings cannot fail). -/
def jsonMarshalUploadEvent (bucket key : String) : String :=
  "\x7b\"bucket\":" ++ ⟨goJSONString bucket⟩ ++ ",\"key\":" ++ ⟨goJSONString key⟩ ++ "\x7d"

/-- Models the Upload Notifier handler: for each S3 record, marshal the
UploadEvent payload and publish it to the fanout topic; the first failed
publish returns its error for the whole invocation. Returns the handler
result and the list of payloads actually published, in order (a failed
publish publishes nothing). -/
def notifierHandler (env : Env) : List S3Record → Except Err Unit × List String
  | [] => (.ok (), [])
  | r :: rs =>
    let payload := jsonMarshalUploadEvent r.bucketName r.urlDecodedKey
    if env.publishOk payload then
      let rest := notifierHandler env rs
      (rest.1, payload :: rest.2)
    else (.error .publishFail, [])

/-! Part 7: analysis definitions and concrete environments used by the
theorems below. A record's success or failure never depends on the write
log, so the per-record outcome is well defined on its own. -/

/-- Outcome of the Metadata Worker on a single record, irrespective of the
write log it starts from. -/
def recordResultMeta (env : Env) (r : SQSRecord) : Except Err Unit :=
  (processRecordMeta env ⟨[], []⟩ r).1

/-- Outcome of the Converter Worker on a single record, irrespective of the
write log it starts from. -/
def recordResultConv (env : Env) (r : SQSRecord) : Except Err Unit :=
  (processRecordConv env ⟨[], []⟩ r).1

/-- Environment in which every external call succeeds: the message "m1"
parses to bucket `b`, key `photos/aaa.jpg`; the stored object decodes to an
800×600 image. -/
def envAllOk : Env where
  parseBody := fun s => if s = "m1" then .ok ⟨"b", "photos/aaa.jpg"⟩ else .error .serialization
  getObject := fun _ _ => .ok (.raw 7)
  decode := fun _ => .ok (⟨800, 600, .src 7⟩, "png")
  decodeConfig := fun _ => .ok (800, 600, "png")
  encodeOk := fun _ _ => true
  putOk := fun _ _ => true
  putItemOk := fun _ => true
  publishOk := fun _ => true
  readAllOk := fun _ => true
  writeTmpOk := fun _ => true
  openTmpOk := true
  statOk := true
  fileSize := fun _ => 1234
  modTime := "2024-01-01T00:00:00Z"

/-- Environment identical to `envAllOk` except that uploading the large
resized artifact fails (and only that upload). -/
def envLargeFails : Env :=
  { envAllOk with putOk := fun _ path => path ≠ "resized/aaa/large.jpg" }

/-- Environment identical to `envAllOk` except that the image codecs reject
the object's bytes (corrupted or unsupported image data). -/
def envDecodeFails : Env :=
  { envAllOk with
    decode := fun _ => .error .decodeFail
    decodeConfig := fun _ => .error .decodeFail }

/-- Environment identical to `envAllOk` except that publishing to the
fanout topic fails for every payload. -/
def envPublishFails : Env :=
  { envAllOk with publishOk := fun _ => false }

/-! Part 8: theorems. -/

/-- Claim C4: `extractFilename` strips the directory and the extension:
`extractFilename "photos/aaa.jpg" = "aaa"`, `extractFilename "aaa.png" =
"aaa"`, and `extractFilename "aaa" = "aaa"`. -/
theorem extractFilename_derivation :
    extractFilename "photos/aaa.jpg" = "aaa" ∧
    extractFilename "aaa.png" = "aaa" ∧
    extractFilename "aaa" = "aaa" := by
  decide

/-- Claim C9: the three source copies of `extractFilename` — Metadata
Worker, Converter Worker, Resizer Worker — agree on every input, so the
three workers derive the same join key and storage paths from a key. -/
theorem extractFilename_copies_agree :
    ∀ input : String,
      extractFilename input = extractFilenameConv input ∧
      extractFilenameConv input = extractFilenameResz input :=
  fun _ => ⟨rfl, rfl⟩

/-- Witness for C9: the three copies agree at a concrete key. -/
theorem extractFilename_copies_agree_witness :
    extractFilename "photos/aaa.jpg" = extractFilenameConv "photos/aaa.jpg" ∧
    extractFilenameConv "photos/aaa.jpg" = extractFilenameResz "photos/aaa.jpg" :=
  extractFilename_copies_agree "photos/aaa.jpg"

/-- Claim C1 (defect in the reference code, witnessing the claim's failure):
in an environment where the upload of the large artifact fails while every
other call succeeds, the Resizer handler still returns success for the
batch, having uploaded only the thumbnail and medium artifacts — the
goroutines log and swallow the failure instead of propagating it. -/
theorem resizer_swallows_upload_failure :
    (handlerResz envLargeFails ⟨[], []⟩ [⟨"id1", "m1"⟩]).1 = .ok () ∧
    ((handlerResz envLargeFails ⟨[], []⟩ [⟨"id1", "m1"⟩]).2.puts.map fun p => p.2.1) =
      ["resized/aaa/thumbnail.jpg", "resized/aaa/medium.jpg"] :=
  ⟨rfl, rfl⟩

/-- Claim C2: when the fetched object's bytes fail to decode as an image,
each of the Metadata, Converter and Resizer workers returns the decoder's
error for that record and leaves the write log untouched: no DynamoDB item
is put and no blob is uploaded. -/
theorem decode_failure_writes_nothing (env : Env) (st : St) (r : SQSRecord)
    (body : MessageBody) (bytes : Bytes) (e e' : Err)
    (hp : env.parseBody r.body = .ok body)
    (hg : env.getObject body.bucket body.key = .ok bytes)
    (hra : env.readAllOk bytes = true)
    (hw : env.writeTmpOk bytes = true)
    (ho : env.openTmpOk = true)
    (hdc : env.decodeConfig bytes = .error e)
    (hd : env.decode bytes = .error e') :
    processRecordMeta env st r = (.error e, st) ∧
    processRecordConv env st r = (.error e', st) ∧
    processRecordResz env st r = (.error e', st) := by
  refine ⟨?_, ?_, ?_⟩ <;>
    simp [processRecordMeta, processRecordConv, processRecordResz,
      generateMetadata, hp, hg, hra, hw, ho, hdc, hd]

/-- Witness for C2: concrete run of the three workers on corrupted bytes. -/
theorem decode_failure_writes_nothing_witness :
    processRecordMeta envDecodeFails ⟨[], []⟩ ⟨"id1", "m1"⟩ = (.error .decodeFail, ⟨[], []⟩) ∧
    processRecordConv envDecodeFails ⟨[], []⟩ ⟨"id1", "m1"⟩ = (.error .decodeFail, ⟨[], []⟩) ∧
    processRecordResz envDecodeFails ⟨[], []⟩ ⟨"id1", "m1"⟩ = (.error .decodeFail, ⟨[], []⟩) :=
  decode_failure_writes_nothing envDecodeFails ⟨[], []⟩ ⟨"id1", "m1"⟩
    ⟨"b", "photos/aaa.jpg"⟩ (.raw 7) .decodeFail .decodeFail rfl rfl rfl rfl rfl rfl rfl

/-- Helper: the Metadata Worker's per-record outcome does not depend on the
write log (the log is only appended to). -/
theorem processRecordMeta_fst (env : Env) (st : St) (r : SQSRecord) :
    (processRecordMeta env st r).1 = recordResultMeta env r := by
  simp only [recordResultMeta, processRecordMeta]
  cases env.parseBody r.body with
  | error e => rfl
  | ok body =>
    dsimp only
    cases generateMetadata env body.bucket body.key with
    | error e => rfl
    | ok md =>
      by_cases h : env.putItemOk ⟨extractFilename body.key, body.bucket, md⟩ <;> simp [h]

/-- Helper: the Converter Worker's per-record outcome does not depend on
the write log. -/
theorem processRecordConv_fst (env : Env) (st : St) (r : SQSRecord) :
    (processRecordConv env st r).1 = recordResultConv env r := by
  simp only [recordResultConv, processRecordConv]
  cases env.parseBody r.body with
  | error e => rfl
  | ok body =>
    dsimp only
    cases env.getObject body.bucket body.key with
    | error e => rfl
    | ok bytes =>
      dsimp only
      cases env.decode bytes with
      | error e => rfl
      | ok p =>
        dsimp only
        cases convertToJPEG env p.1 with
        | error e => rfl
        | ok jp =>
          by_cases h : env.putOk body.bucket (convertedPath body.key) <;> simp [h]

/-- Helper: the Metadata handler succeeds exactly when every record does. -/
theorem handlerMeta_ok_iff (env : Env) (st : St) (rs : List SQSRecord) :
    (handlerMeta env st rs).1 = .ok () ↔
      ∀ r ∈ rs, recordResultMeta env r = .ok () := by
  induction rs generalizing st with
  | nil => simp [handlerMeta]
  | cons r rs ih =>
    unfold handlerMeta
    cases h : processRecordMeta env st r with
    | mk res st' =>
      have hfst : res = recordResultMeta env r := by
        have := processRecordMeta_fst env st r
        rw [h] at this; exact this
      cases res with
      | ok u =>
        simp only []
        rw [ih st']
        constructor
        · intro hall r' hr'
          rcases List.mem_cons.mp hr' with h1 | h1
          · subst h1; exact hfst ▸ rfl
          · exact hall r' h1
        · intro hall r' hr'
          exact hall r' (List.mem_cons_of_mem _ hr')
      | error e =>
        simp only []
        constructor
        · intro hcontra; cases hcontra
        · intro hall
          have := hall r (List.mem_cons_self r rs)
          rw [← hfst] at this; cases this

/-- Helper: the Converter handler succeeds exactly when every record does. -/
theorem handlerConv_ok_iff (env : Env) (st : St) (rs : List SQSRecord) :
    (handlerConv env st rs).1 = .ok () ↔
      ∀ r ∈ rs, recordResultConv env r = .ok () := by
  induction rs generalizing st with
  | nil => simp [handlerConv]
  | cons r rs ih =>
    unfold handlerConv
    cases h : processRecordConv env st r with
    | mk res st' =>
      have hfst : res = recordResultConv env r := by
        have := processRecordConv_fst env st r
        rw [h] at this; exact this
      cases res with
      | ok u =>
        simp only []
        rw [ih st']
        constructor
        · intro hall r' hr'
          rcases List.mem_cons.mp hr' with h1 | h1
          · subst h1; exact hfst ▸ rfl
          · exact hall r' h1
        · intro hall r' hr'
          exact hall r' (List.mem_cons_of_mem _ hr')
      | error e =>
        simp only []
        constructor
        · intro hcontra; cases hcontra
        · intro hall
          have := hall r (List.mem_cons_self r rs)
          rw [← hfst] at this; cases this

/-- Helper: a Metadata handler error is the error of some record. -/
theorem handlerMeta_error (env : Env) (st : St) (rs : List SQSRecord) (e : Err) :
    (handlerMeta env st rs).1 = .error e →
      ∃ r ∈ rs, recordResultMeta env r = .error e := by
  induction rs generalizing st with
  | nil => intro h; cases h
  | cons r rs ih =>
    unfold handlerMeta
    cases h : processRecordMeta env st r with
    | mk res st' =>
      have hfst : res = recordResultMeta env r := by
        have := processRecordMeta_fst env st r
        rw [h] at this; exact this
      cases res with
      | ok u =>
        intro hrec
        obtain ⟨r', hr', he⟩ := ih st' hrec
        exact ⟨r', List.mem_cons_of_mem _ hr', he⟩
      | error e' =>
        intro heq
        cases heq
        exact ⟨r, List.mem_cons_self r rs, hfst.symm⟩

/-- Helper: a Converter handler error is the error of some record. -/
theorem handlerConv_error (env : Env) (st : St) (rs : List SQSRecord) (e : Err) :
    (handlerConv env st rs).1 = .error e →
      ∃ r ∈ rs, recordResultConv env r = .error e := by
  induction rs generalizing st with
  | nil => intro h; cases h
  | cons r rs ih =>
    unfold handlerConv
    cases h : processRecordConv env st r with
    | mk res st' =>
      have hfst : res = recordResultConv env r := by
        have := processRecordConv_fst env st r
        rw [h] at this; exact this
      cases res with
      | ok u =>
        intro hrec
        obtain ⟨r', hr', he⟩ := ih st' hrec
        exact ⟨r', List.mem_cons_of_mem _ hr', he⟩
      | error e' =>
        intro heq
        cases heq
        exact ⟨r, List.mem_cons_self r rs, hfst.symm⟩

/-- Claim C3: batch processing is all-or-nothing for the Metadata and
Converter workers: the handler reports success exactly when every record in
the batch succeeds — so one failing record makes the whole batch fail, with
no per-message success reporting (the result type is a single outcome for
the batch) — and a reported error is the error of some failing record. -/
theorem batch_all_or_nothing (env : Env) (st : St) (rs : List SQSRecord) (e : Err) :
    ((handlerMeta env st rs).1 = .ok () ↔ ∀ r ∈ rs, recordResultMeta env r = .ok ()) ∧
    ((handlerMeta env st rs).1 = .error e → ∃ r ∈ rs, recordResultMeta env r = .error e) ∧
    ((handlerConv env st rs).1 = .ok () ↔ ∀ r ∈ rs, recordResultConv env r = .ok ()) ∧
    ((handlerConv env st rs).1 = .error e → ∃ r ∈ rs, recordResultConv env r = .error e) :=
  ⟨handlerMeta_ok_iff env st rs, handlerMeta_error env st rs e,
   handlerConv_ok_iff env st rs, handlerConv_error env st rs e⟩

/-- Witness for C3: a batch holding one malformed record fails as a whole
for both workers, even though its other record succeeds on its own. -/
theorem batch_all_or_nothing_witness :
    ((handlerMeta envAllOk ⟨[], []⟩ [⟨"id1", "m1"⟩, ⟨"id2", "bad"⟩]).1 = .ok () ↔
      ∀ r ∈ [(⟨"id1", "m1"⟩ : SQSRecord), ⟨"id2", "bad"⟩], recordResultMeta envAllOk r = .ok ()) ∧
    ((handlerMeta envAllOk ⟨[], []⟩ [⟨"id1", "m1"⟩, ⟨"id2", "bad"⟩]).1 = .error .serialization →
      ∃ r ∈ [(⟨"id1", "m1"⟩ : SQSRecord), ⟨"id2", "bad"⟩],
        recordResultMeta envAllOk r = .error .serialization) ∧
    ((handlerConv envAllOk ⟨[], []⟩ [⟨"id1", "m1"⟩, ⟨"id2", "bad"⟩]).1 = .ok () ↔
      ∀ r ∈ [(⟨"id1", "m1"⟩ : SQSRecord), ⟨"id2", "bad"⟩], recordResultConv envAllOk r = .ok ()) ∧
    ((handlerConv envAllOk ⟨[], []⟩ [⟨"id1", "m1"⟩, ⟨"id2", "bad"⟩]).1 = .error .serialization →
      ∃ r ∈ [(⟨"id1", "m1"⟩ : SQSRecord), ⟨"id2", "bad"⟩],
        recordResultConv envAllOk r = .error .serialization) :=
  batch_all_or_nothing envAllOk ⟨[], []⟩ [⟨"id1", "m1"⟩, ⟨"id2", "bad"⟩] .serialization

/-- Claim C6: when every step succeeds for a message, the Resizer writes
exactly three blobs, at `resized/{DerivedName}/thumbnail.jpg`, `.../medium.jpg`
and `.../large.jpg`, holding the JPEG encodings at quality 100 of the source
image resampled to target widths 100, 500 and 1000 respectively. -/
theorem resizer_success_writes_three (env : Env) (st : St) (r : SQSRecord)
    (body : MessageBody) (bytes : Bytes) (img : Image) (fmt : String)
    (hp : env.parseBody r.body = .ok body)
    (hg : env.getObject body.bucket body.key = .ok bytes)
    (hd : env.decode bytes = .ok (img, fmt))
    (he : ∀ t ∈ resizeTasks, env.encodeOk 100 (resizeGo t.2 img) = true)
    (hput : ∀ t ∈ resizeTasks, env.putOk body.bucket (resizedPath body.key t.1) = true) :
    processRecordResz env st r =
      (.ok (), { st with puts := st.puts ++
        [(body.bucket, resizedPath body.key "thumbnail", .jpeg 100 (resizeGo 100 img)),
         (body.bucket, resizedPath body.key "medium", .jpeg 100 (resizeGo 500 img)),
         (body.bucket, resizedPath body.key "large", .jpeg 100 (resizeGo 1000 img))] }) := by
  have h1 := he ("thumbnail", 100) (by simp [resizeTasks])
  have h2 := he ("medium", 500) (by simp [resizeTasks])
  have h3 := he ("large", 1000) (by simp [resizeTasks])
  have p1 := hput ("thumbnail", 100) (by simp [resizeTasks])
  have p2 := hput ("medium", 500) (by simp [resizeTasks])
  have p3 := hput ("large", 1000) (by simp [resizeTasks])
  simp [processRecordResz, hp, hg, hd, resizeTasks, runResizeTask, convertToJPEG,
    h1, h2, h3, p1, p2, p3]

/-- Witness for C6: concrete successful run of the Resizer on one record. -/
theorem resizer_success_writes_three_witness :
    processRecordResz envAllOk ⟨[], []⟩ ⟨"id1", "m1"⟩ =
      (.ok (), { puts :=
        [("b", resizedPath "photos/aaa.jpg" "thumbnail",
            .jpeg 100 (resizeGo 100 ⟨800, 600, .src 7⟩)),
         ("b", resizedPath "photos/aaa.jpg" "medium",
            .jpeg 100 (resizeGo 500 ⟨800, 600, .src 7⟩)),
         ("b", resizedPath "photos/aaa.jpg" "large",
            .jpeg 100 (resizeGo 1000 ⟨800, 600, .src 7⟩))], items := [] }) :=
  resizer_success_writes_three envAllOk ⟨[], []⟩ ⟨"id1", "m1"⟩
    ⟨"b", "photos/aaa.jpg"⟩ (.raw 7) ⟨800, 600, .src 7⟩ "png"
    rfl rfl rfl (fun _ _ => rfl) (fun _ _ => rfl)

/-- Claim C7: when every step succeeds for a message, the Converter uploads
exactly one blob, at `converted/{DerivedName}.jpg` — a pure function of the
message's key — holding the JPEG encoding of the decoded image at quality
100; reading that path back afterwards returns the new bytes whatever blob
the store held there before (overwrite semantics). -/
theorem converter_single_write (env : Env) (st : St) (r : SQSRecord)
    (body : MessageBody) (bytes : Bytes) (img : Image) (fmt : String)
    (hp : env.parseBody r.body = .ok body)
    (hg : env.getObject body.bucket body.key = .ok bytes)
    (hd : env.decode bytes = .ok (img, fmt))
    (he : env.encodeOk 100 img = true)
    (hput : env.putOk body.bucket (convertedPath body.key) = true) :
    processRecordConv env st r =
      (.ok (), { st with
        puts := st.puts ++ [(body.bucket, convertedPath body.key, .jpeg 100 img)] }) ∧
    lookupStore (st.puts ++ [(body.bucket, convertedPath body.key, .jpeg 100 img)])
      body.bucket (convertedPath body.key) = some (.jpeg 100 img) := by
  constructor
  · simp [processRecordConv, hp, hg, hd, convertToJPEG, he, hput]
  · simp [lookupStore, List.find?]

/-- Witness for C7: concrete successful run of the Converter on one record,
starting from a log that already holds a blob at the same path. -/
theorem converter_single_write_witness :
    processRecordConv envAllOk ⟨[("b", "converted/aaa.jpg", .raw 3)], []⟩ ⟨"id1", "m1"⟩ =
      (.ok (), { puts := [("b", "converted/aaa.jpg", .raw 3),
        ("b", convertedPath "photos/aaa.jpg", .jpeg 100 ⟨800, 600, .src 7⟩)], items := [] }) ∧
    lookupStore [("b", "converted/aaa.jpg", .raw 3),
        ("b", convertedPath "photos/aaa.jpg", .jpeg 100 ⟨800, 600, .src 7⟩)]
      "b" (convertedPath "photos/aaa.jpg") = some (.jpeg 100 ⟨800, 600, .src 7⟩) :=
  converter_single_write envAllOk ⟨[("b", "converted/aaa.jpg", .raw 3)], []⟩ ⟨"id1", "m1"⟩
    ⟨"b", "photos/aaa.jpg"⟩ (.raw 7) ⟨800, 600, .src 7⟩ "png" rfl rfl rfl rfl rfl

/-- Claim C8: the Upload Notifier succeeds exactly when every record's
publish succeeds; on success the published payloads are, in order, exactly
one JSON `UploadEvent` per input record (none skipped, none duplicated);
and when some record's publish fails the handler returns the publish error
for the whole invocation. -/
theorem notifier_publishes_each_once (env : Env) (rs : List S3Record) :
    ((notifierHandler env rs).1 = .ok () ↔
      ∀ r ∈ rs, env.publishOk (jsonMarshalUploadEvent r.bucketName r.urlDecodedKey) = true) ∧
    ((notifierHandler env rs).1 = .ok () →
      (notifierHandler env rs).2 =
        rs.map fun r => jsonMarshalUploadEvent r.bucketName r.urlDecodedKey) ∧
    ((¬ ∀ r ∈ rs, env.publishOk (jsonMarshalUploadEvent r.bucketName r.urlDecodedKey) = true) →
      (notifierHandler env rs).1 = .error .publishFail) := by
  induction rs with
  | nil => simp [notifierHandler]
  | cons r rs ih =>
    by_cases hr : env.publishOk (jsonMarshalUploadEvent r.bucketName r.urlDecodedKey) = true
    · refine ⟨?_, ?_, ?_⟩
      · rw [show (notifierHandler env (r :: rs)).1 = (notifierHandler env rs).1 by
          simp [notifierHandler, hr]]
        rw [ih.1]
        constructor
        · intro hall r' hr'
          rcases List.mem_cons.mp hr' with h1 | h1
          · subst h1; exact hr
          · exact hall r' h1
        · intro hall r' hr'
          exact hall r' (List.mem_cons_of_mem _ hr')
      · intro hok
        have hok' : (notifierHandler env rs).1 = .ok () := by
          rw [show (notifierHandler env (r :: rs)).1 = (notifierHandler env rs).1 by
            simp [notifierHandler, hr]] at hok
          exact hok
        simp [notifierHandler, hr, ih.2.1 hok']
      · intro hnot
        have : ¬ ∀ r' ∈ rs,
            env.publishOk (jsonMarshalUploadEvent r'.bucketName r'.urlDecodedKey) = true := by
          intro hall
          exact hnot fun r' hr' => by
            rcases List.mem_cons.mp hr' with h1 | h1
            · subst h1; exact hr
            · exact hall r' h1
        simp [notifierHandler, hr, ih.2.2 this]
    · refine ⟨?_, ?_, ?_⟩
      · simp only [notifierHandler, if_neg hr]
        constructor
        · intro hcontra; cases hcontra
        · intro hall
          exact absurd (hall r (List.mem_cons_self r rs)) hr
      · intro hok
        simp only [notifierHandler, if_neg hr] at hok
        cases hok
      · intro _
        simp [notifierHandler, hr]

/-- Witness for C8: two records publish two payloads in order; with a
failing topic the same batch returns the publish error. -/
theorem notifier_publishes_each_once_witness :
    (notifierHandler envAllOk [⟨"b", "k1"⟩, ⟨"b", "k2"⟩]).2 =
      [jsonMarshalUploadEvent "b" "k1", jsonMarshalUploadEvent "b" "k2"] ∧
    (notifierHandler envPublishFails [⟨"b", "k1"⟩, ⟨"b", "k2"⟩]).1 = .error .publishFail :=
  ⟨(notifier_publishes_each_once envAllOk [⟨"b", "k1"⟩, ⟨"b", "k2"⟩]).2.1 rfl,
   (notifier_publishes_each_once envPublishFails [⟨"b", "k1"⟩, ⟨"b", "k2"⟩]).2.2
     fun hall => by cases hall ⟨"b", "k1"⟩ (List.mem_cons_self _ _)⟩

/-- Helper: `resizeGo` output bounds are the bounds computed by
`resizeDims`, in the trivial case as well. -/
theorem resizeGo_dims (t : Nat) (img : Image) :
    (resizeGo t img).width = (resizeDims t 0 img.width img.height).1 ∧
    (resizeGo t img).height = (resizeDims t 0 img.width img.height).2 := by
  simp only [resizeGo]
  split
  · next h => exact ⟨h.1.symm, h.2.symm⟩
  · exact ⟨rfl, rfl⟩

/-- Helper: for a nonzero target width, `resizeDims` keeps the target width
and computes the height as `uint(0.7 + dy·w/dx)`. -/
theorem resizeDims_width_pos (w dx dy : Nat) (hw0 : w ≠ 0) :
    resizeDims w 0 dx dy =
      (w, (⌊(7 : ℚ)/10 + (dy : ℚ) * (w : ℚ) / (dx : ℚ)⌋).toNat) := by
  have hcf : calcFactors w 0 (dx : ℚ) (dy : ℚ) = ((dx : ℚ) / (w : ℚ), (dx : ℚ) / (w : ℚ)) := by
    simp [calcFactors, hw0]
  simp only [resizeDims, hcf, hw0, if_false, if_true, if_neg, reduceIte]
  rw [div_div_eq_mul_div]

/-- Counterexample for claim C5 as stated: a 50×50 source resized with
target width 100 comes out 100 pixels wide — `resize.Resize` upscales, it
does not keep the original width when the original width is at most the
target. -/
theorem resize_upscales_small_source :
    (resizeGo 100 ⟨50, 50, .src 0⟩).width = 100 ∧
    (resizeGo 100 ⟨50, 50, .src 0⟩).width ≠ 50 := by
  have h : (resizeGo 100 (⟨50, 50, .src 0⟩ : Image)).width = 100 := by
    rw [(resizeGo_dims 100 ⟨50, 50, .src 0⟩).1, resizeDims_width_pos 100 50 50 (by decide)]
  exact ⟨h, by rw [h]; decide⟩

/-- Claim C5 as amended: for target width `w` among 100, 500 and 1000 and a
source with positive dimensions, the output width always equals `w` (the
code upscales small sources rather than keeping their width), and the
output height is within one pixel of the exact aspect-preserving height
`srcH·w/srcW` (float64 modelled as exact rationals). -/
theorem resize_output_dims (w : Nat) (img : Image)
    (hw : w ∈ [(100 : Nat), 500, 1000])
    (hdx : 0 < img.width) (hdy : 0 < img.height) :
    (resizeGo w img).width = w ∧
    |((resizeGo w img).height : ℚ) - (img.height : ℚ) * (w : ℚ) / (img.width : ℚ)| < 1 := by
  have hw0 : w ≠ 0 := by
    simp only [List.mem_cons, List.not_mem_nil, or_false] at hw
    rcases hw with h | h | h <;> omega
  have hdims := resizeDims_width_pos w img.width img.height hw0
  have hgo := resizeGo_dims w img
  set x : ℚ := (img.height : ℚ) * (w : ℚ) / (img.width : ℚ) with hx
  have hx0 : 0 ≤ x := by positivity
  have hnn : (0 : ℤ) ≤ ⌊(7 : ℚ)/10 + x⌋ := by
    apply Int.floor_nonneg.mpr
    linarith
  have hcast : (((⌊(7 : ℚ)/10 + x⌋).toNat : ℕ) : ℚ) = ((⌊(7 : ℚ)/10 + x⌋ : ℤ) : ℚ) := by
    exact_mod_cast congrArg (fun z : ℤ => (z : ℚ)) (Int.toNat_of_nonneg hnn)
  refine ⟨by rw [hgo.1, hdims], ?_⟩
  rw [hgo.2, hdims]
  have hfl : ((⌊(7 : ℚ)/10 + x⌋ : ℤ) : ℚ) ≤ (7 : ℚ)/10 + x := Int.floor_le _
  have hfu : (7 : ℚ)/10 + x < ((⌊(7 : ℚ)/10 + x⌋ : ℤ) : ℚ) + 1 := Int.lt_floor_add_one _
  rw [hcast]
  rw [abs_lt]
  constructor <;> linarith

/-- Witness for the amended C5: an 800×600 source at target width 100. -/
theorem resize_output_dims_witness :
    (resizeGo 100 ⟨800, 600, .src 0⟩).width = 100 ∧
    |((resizeGo 100 (⟨800, 600, .src 0⟩ : Image)).height : ℚ) -
        (600 : ℚ) * (100 : ℚ) / (800 : ℚ)| < 1 :=
  resize_output_dims 100 ⟨800, 600, .src 0⟩ (by decide) (by decide) (by decide)

/-- Helper: `takeWhile` walks through a block that satisfies the predicate. -/
theorem takeWhile_append_all (p : Char → Bool) (l₁ l₂ : List Char)
    (h : ∀ a ∈ l₁, p a = true) :
    (l₁ ++ l₂).takeWhile p = l₁ ++ l₂.takeWhile p := by
  induction l₁ with
  | nil => simp
  | cons a l ih =>
    simp only [List.cons_append,
      List.takeWhile_cons_of_pos (h a (List.mem_cons_self a l))]
    rw [ih fun b hb => h b (List.mem_cons_of_mem a hb)]

/-- Helper: `takeWhile` stops exactly at the first failing element. -/
theorem takeWhile_append_stop (p : Char → Bool) (l₁ l₂ : List Char) (b : Char)
    (h : ∀ a ∈ l₁, p a = true) (hb : p b = false) :
    (l₁ ++ b :: l₂).takeWhile p = l₁ := by
  rw [takeWhile_append_all p l₁ (b :: l₂) h,
    List.takeWhile_cons_of_neg (by simp [hb]), List.append_nil]

/-- Helper: every element surviving `takeWhile` satisfies the predicate. -/
theorem mem_takeWhile_pred (p : Char → Bool) (l : List Char) (a : Char)
    (h : a ∈ l.takeWhile p) : p a = true := by
  induction l with
  | nil => cases h
  | cons b l ih =>
    by_cases hb : p b = true
    · rw [List.takeWhile_cons_of_pos hb] at h
      rcases List.mem_cons.mp h with h1 | h1
      · subst h1; exact hb
      · exact ih h1
    · rw [List.takeWhile_cons_of_neg (by simpa using hb)] at h
      cases h

/-- Helper: the extension of a base name whose part after its last dot has
no dot and no separator is that dot and tail. -/
theorem extL_of_shape (u v : List Char) (hv : '.' ∉ v) (hs : '/' ∉ v) :
    extL (u ++ '.' :: v) = '.' :: v := by
  have hpv : ∀ a ∈ v.reverse, (fun c => decide (c ≠ '/')) a = true := by
    intro a ha
    simp only [decide_eq_true_eq, ne_eq]
    exact fun hEq => hs (hEq ▸ List.mem_reverse.mp ha)
  have hqv : ∀ a ∈ v.reverse, (fun c => decide (c ≠ '.')) a = true := by
    intro a ha
    simp only [decide_eq_true_eq, ne_eq]
    exact fun hEq => hv (hEq ▸ List.mem_reverse.mp ha)
  have hrev : (u ++ '.' :: v).reverse = v.reverse ++ '.' :: u.reverse := by
    simp
  simp only [extL, hrev]
  rw [takeWhile_append_all _ _ _ hpv, List.takeWhile_cons_of_pos (by decide)]
  rw [if_pos (by simp)]
  rw [takeWhile_append_stop _ _ _ _ hqv (by decide)]
  simp

/-- Helper: trimming a suffix that is literally there removes it. -/
theorem trimSuffixL_append (u s : List Char) : trimSuffixL (u ++ s) s = u := by
  have hlen : (u ++ s).length - s.length = u.length := by simp
  have hdrop : (u ++ s).drop ((u ++ s).length - s.length) = s := by
    rw [hlen, List.drop_left]
  rw [trimSuffixL, if_pos ⟨by simp, hdrop⟩, hlen, List.take_left]

/-- Helper: a base name produced by `baseL` never has a separator after a
dot — the only `baseL` output containing a separator is "/". -/
theorem sep_not_mem_of_baseL (p u v : List Char)
    (hb : baseL p = u ++ '.' :: v) : '/' ∉ v := by
  unfold baseL at hb
  by_cases h0 : p = []
  · rw [if_pos h0] at hb
    cases u with
    | nil =>
      simp only [List.nil_append] at hb
      injection hb with h1 h2
      rw [← h2]
      exact List.not_mem_nil '/'
    | cons c u' =>
      injection hb with h1 h2
      exact absurd h2.symm (by simp)
  · rw [if_neg h0] at hb
    dsimp only at hb
    by_cases h1 : lastElem (stripTrailingSep p) = []
    · rw [if_pos h1] at hb
      cases u with
      | nil =>
        simp only [List.nil_append] at hb
        injection hb with h1 h2
        cases h1
      | cons c u' =>
        injection hb with h1 h2
        exact absurd h2.symm (by simp)
    · rw [if_neg h1] at hb
      intro hmem
      have hin : '/' ∈ lastElem (stripTrailingSep p) := by
        rw [hb]
        exact List.mem_append_right _ (List.mem_cons_of_mem _ hmem)
      have := mem_takeWhile_pred _ _ _ (List.mem_reverse.mp hin)
      simp at this

/-- Claim C10: `extractFilename` strips only the final extension: whenever
the base name of `key` splits as `u ++ "." ++ v` with no dot in `v`, the
result is exactly `u` — so `extractFilename "aaa.tar.gz" = "aaa.tar"`, and a
base name that starts with its only dot (such as ".config") collapses to
the empty `DerivedName`, sending every such key to the same storage path
`converted/.jpg`. -/
theorem extractFilename_last_dot_only (key : String) (u v : List Char)
    (hb : baseL key.data = u ++ '.' :: v) (hv : '.' ∉ v) :
    extractFilename key = ⟨u⟩ ∧
    (u = [] → extractFilename key = "" ∧ convertedPath key = "converted/.jpg") ∧
    extractFilename "aaa.tar.gz" = "aaa.tar" ∧
    extractFilename ".config" = "" := by
  have hs : '/' ∉ v := sep_not_mem_of_baseL key.data u v hb
  have hcore : trimSuffixL (baseL key.data) (extL (baseL key.data)) = u := by
    rw [hb, extL_of_shape u v hv hs]
    exact trimSuffixL_append u ('.' :: v)
  have hmain : extractFilename key = ⟨u⟩ := by
    simp only [extractFilename, hcore]
  refine ⟨hmain, ?_, by decide, by decide⟩
  intro hu
  subst hu
  have hconv : extractFilenameConv key = ⟨[]⟩ := by
    simp only [extractFilenameConv, hcore]
  constructor
  · exact hmain
  · simp only [convertedPath, hconv, ConvertedFolder]
    rfl

/-- Witness for C10: the key ".config" with `u = []`, `v = "config"`. -/
theorem extractFilename_last_dot_only_witness :
    extractFilename ".config" = ⟨[]⟩ ∧
    (([] : List Char) = [] →
      extractFilename ".config" = "" ∧ convertedPath ".config" = "converted/.jpg") ∧
    extractFilename "aaa.tar.gz" = "aaa.tar" ∧
    extractFilename ".config" = "" :=
  extractFilename_last_dot_only ".config" [] "config".data (by decide) (by decide)

end PixelCascade
